import Mathlib

/-!
Verification of the snarkVM transaction byte codec
(ledger/block/src/transaction/bytes.rs).

The codec is embedded shallowly: byte streams are lists of natural
numbers, the limited reader and writer are explicit byte counters, and
the external collaborators (the transaction identifier codec, the
program owner, deployment, execution and fee codecs, the three variant
constructors and the transaction identifier function) are bundled in a
Network structure, modelled from the spec since their sources lie
outside the fragment under study.
-/

/-- Errors of the codec, following the error taxonomy of the source and
the spec: invalid version, invalid variant, invalid fee variant, the
size limit of the bounded stream, transaction identifier mismatch, end
of stream, a sub-object codec failure, and a constructor failure
wrapping the constructor message. -/
inductive CodecError where
  | invalidVersion
  | invalidVariant
  | invalidFeeVariant
  | sizeLimitExceeded
  | identifierMismatch
  | endOfStream
  | subObjectError
  | constructionError (msg : String)
  deriving DecidableEq

/-- State of the bounded reader: the remaining input bytes and the
cumulative number of bytes consumed so far. -/
abbrev RState : Type := List Nat × Nat

/-- A parsing step: given the byte limit of the bounded reader and the
current reader state, either fail or produce a value and a new state. -/
def PStep (α : Type) : Type := Nat → RState → Except CodecError (α × RState)

/-- A step that consumes nothing and returns a value. -/
def ppure {α : Type} (a : α) : PStep α := fun _ s => .ok (a, s)

/-- A step that fails with the given error. -/
def pfail {α : Type} (e : CodecError) : PStep α := fun _ _ => .error e

/-- Sequencing of parsing steps, short-circuiting on the first error,
mirroring the question-mark operator of the source. -/
def pbind {α β : Type} (f : PStep α) (g : α → PStep β) : PStep β := fun L s =>
  match f L s with
  | .error e => .error e
  | .ok (a, s₁) => g a L s₁

/-- Modelled from the spec: one byte read through the LimitedReader
(BoundedStream). The read fails with the size-limit error before the
over-limit byte is returned; reading past the end of the input is an
end-of-stream error. -/
def readU8 : PStep Nat := fun L s =>
  if L < s.2 + 1 then .error .sizeLimitExceeded
  else
    match s.1 with
    | [] => .error .endOfStream
    | b :: rest => .ok (b, (rest, s.2 + 1))

/-- Modelled from the spec: a sub-object codec read (identifier, owner,
deployment, execution or fee) through the LimitedReader. The external
codec rd reports the decoded value and the number of bytes it consumed;
a successful read whose consumption would cross the byte limit fails
with the size-limit error, and a failure of the external codec is a
sub-object decode error. -/
def readSub {α : Type} (rd : List Nat → Option (α × Nat)) : PStep α := fun L s =>
  match rd s.1 with
  | none => .error .subObjectError
  | some (a, n) =>
    if L < s.2 + n then .error .sizeLimitExceeded
    else .ok (a, (s.1.drop n, s.2 + n))

/-- Lifts a constructor result into a parsing step, wrapping the
constructor failure message, mirroring the map_err of the source. -/
def pofResult {α : Type} (r : Except String α) : PStep α :=
  match r with
  | .error e => pfail (.constructionError e)
  | .ok a => ppure a

/-- Modelled from the spec: one chunk written through the LimitedWriter
(BoundedStream). A write that would cross the byte limit fails with the
size-limit error; otherwise the chunk is appended to the bytes written
so far. -/
def writeChunk (L : Nat) (bs acc : List Nat) : Except CodecError (List Nat) :=
  if L < acc.length + bs.length then .error .sizeLimitExceeded
  else .ok (acc ++ bs)

/-- Writes a sequence of chunks through the LimitedWriter in order,
short-circuiting on the first failure. -/
def writeAll (L : Nat) (acc : List Nat) : List (List Nat) → Except CodecError (List Nat)
  | [] => .ok acc
  | c :: cs =>
    match writeChunk L c acc with
    | .error e => .error e
    | .ok acc₁ => writeAll L acc₁ cs

/-- The transaction data model of the source: a tagged union of the
Deploy, Execute and Fee variants, each storing its transaction
identifier first. The Execute fee is optional. -/
inductive Transaction (Owner Depl Exec Fee TxId : Type) where
  | deploy (id : TxId) (owner : Owner) (deployment : Depl) (fee : Fee)
  | execute (id : TxId) (execution : Exec) (fee : Option Fee)
  | fee (id : TxId) (f : Fee)
  deriving DecidableEq

/-- Modelled from the spec: the external collaborators of the codec.
The sub-object codecs (identifier, owner, deployment, execution, fee)
each expose a write function producing bytes and a read function
returning the decoded value with the number of bytes consumed; the
three variant constructors may fail with a message; txId is the
external function recomputing a transaction identifier from the
transaction contents; maxTransactionSize is the network-wide
MAX_TRANSACTION_SIZE constant. -/
structure Network (Owner Depl Exec Fee TxId : Type) where
  maxTransactionSize : Nat
  writeTxId : TxId → List Nat
  readTxId : List Nat → Option (TxId × Nat)
  writeOwner : Owner → List Nat
  readOwner : List Nat → Option (Owner × Nat)
  writeDeployment : Depl → List Nat
  readDeployment : List Nat → Option (Depl × Nat)
  writeExecution : Exec → List Nat
  readExecution : List Nat → Option (Exec × Nat)
  writeFee : Fee → List Nat
  readFee : List Nat → Option (Fee × Nat)
  fromDeployment : Owner → Depl → Fee → Except String (Transaction Owner Depl Exec Fee TxId)
  fromExecution : Exec → Option Fee → Except String (Transaction Owner Depl Exec Fee TxId)
  fromFee : Fee → Except String (Transaction Owner Depl Exec Fee TxId)
  txId : Transaction Owner Depl Exec Fee TxId → TxId

variable {Owner Depl Exec Fee TxId : Type}

/-- The chunks written by Transaction::write_le after the version byte,
in the exact order of the source: the variant tag, the stored
identifier, then the variant fields; for Execute the fee-presence byte
0 or 1 precedes the optional fee. -/
def Transaction.chunks (N : Network Owner Depl Exec Fee TxId) :
    Transaction Owner Depl Exec Fee TxId → List (List Nat)
  | .deploy i owner deployment f =>
    [[0], N.writeTxId i, N.writeOwner owner, N.writeDeployment deployment, N.writeFee f]
  | .execute i execution none =>
    [[1], N.writeTxId i, N.writeExecution execution, [0]]
  | .execute i execution (some f) =>
    [[1], N.writeTxId i, N.writeExecution execution, [1], N.writeFee f]
  | .fee i f =>
    [[2], N.writeTxId i, N.writeFee f]

/-- Transaction::write_le of the source: wrap the writer in a
LimitedWriter with MAX_TRANSACTION_SIZE as the limit, write the version
byte 1, then the variant-specific chunks in order. -/
def Transaction.write_le (N : Network Owner Depl Exec Fee TxId)
    (t : Transaction Owner Depl Exec Fee TxId) : Except CodecError (List Nat) :=
  writeAll N.maxTransactionSize [] ([1] :: Transaction.chunks N t)

/-- The canonical encoding of a transaction: the version byte followed
by the variant chunks. -/
def canonicalBytes (N : Network Owner Depl Exec Fee TxId)
    (t : Transaction Owner Depl Exec Fee TxId) : List Nat :=
  ([1] :: Transaction.chunks N t).flatten

/-- The total encoded size of a transaction: version byte, tag byte and
all field bytes, including the fee-presence byte for Execute. -/
def encodedSize (N : Network Owner Depl Exec Fee TxId)
    (t : Transaction Owner Depl Exec Fee TxId) : Nat :=
  (canonicalBytes N t).length

/-- The body of Transaction::read_le of the source, before the final
identifier check: read the version byte and reject anything other than
1, read the variant tag, dispatch on the tag (0 Deploy, 1 Execute, 2
Fee, anything from 3 up is an invalid variant), read the fields of the
variant in order through the limited reader, construct the transaction
through the variant constructor, and return the identifier read from
the stream together with the constructed transaction. -/
def read_le_core (N : Network Owner Depl Exec Fee TxId) :
    PStep (TxId × Transaction Owner Depl Exec Fee TxId) :=
  pbind readU8 fun version =>
  if version ≠ 1 then pfail .invalidVersion else
  pbind readU8 fun variant =>
  if variant = 0 then
    pbind (readSub N.readTxId) fun i =>
    pbind (readSub N.readOwner) fun owner =>
    pbind (readSub N.readDeployment) fun deployment =>
    pbind (readSub N.readFee) fun fee =>
    pbind (pofResult (N.fromDeployment owner deployment fee)) fun transaction =>
    ppure (i, transaction)
  else if variant = 1 then
    pbind (readSub N.readTxId) fun i =>
    pbind (readSub N.readExecution) fun execution =>
    pbind readU8 fun feeVariant =>
    pbind (if feeVariant = 0 then ppure none
      else if feeVariant = 1 then pbind (readSub N.readFee) fun fee => ppure (some fee)
      else pfail .invalidFeeVariant) fun fee =>
    pbind (pofResult (N.fromExecution execution fee)) fun transaction =>
    ppure (i, transaction)
  else if variant = 2 then
    pbind (readSub N.readTxId) fun i =>
    pbind (readSub N.readFee) fun fee =>
    pbind (pofResult (N.fromFee fee)) fun transaction =>
    ppure (i, transaction)
  else pfail .invalidVariant

/-- Transaction::read_le of the source: run the reading body with
MAX_TRANSACTION_SIZE as the limit of the LimitedReader, then compare
the recomputed identifier of the constructed transaction with the
identifier read from the stream; return the transaction on equality and
fail with the identifier mismatch error otherwise. -/
def Transaction.read_le [DecidableEq TxId] (N : Network Owner Depl Exec Fee TxId)
    (input : List Nat) : Except CodecError (Transaction Owner Depl Exec Fee TxId) :=
  match read_le_core N N.maxTransactionSize (input, 0) with
  | .error e => .error e
  | .ok ((i, transaction), _) =>
    if N.txId transaction = i then .ok transaction else .error .identifierMismatch

/-- The identifier stored on a transaction value. -/
def Transaction.storedId : Transaction Owner Depl Exec Fee TxId → TxId
  | .deploy i _ _ _ => i
  | .execute i _ _ => i
  | .fee i _ => i

/-- The variant tag of a transaction. -/
def Transaction.tagOf : Transaction Owner Depl Exec Fee TxId → Nat
  | .deploy _ _ _ _ => 0
  | .execute _ _ _ => 1
  | .fee _ _ => 2

/-- The network with its identifier recomputation function replaced and
every other collaborator kept, used to state that the writer never
consults the identifier recomputation. -/
def Network.withTxId (N : Network Owner Depl Exec Fee TxId)
    (g : Transaction Owner Depl Exec Fee TxId → TxId) : Network Owner Depl Exec Fee TxId where
  maxTransactionSize := N.maxTransactionSize
  writeTxId := N.writeTxId
  readTxId := N.readTxId
  writeOwner := N.writeOwner
  readOwner := N.readOwner
  writeDeployment := N.writeDeployment
  readDeployment := N.readDeployment
  writeExecution := N.writeExecution
  readExecution := N.readExecution
  writeFee := N.writeFee
  readFee := N.readFee
  fromDeployment := N.fromDeployment
  fromExecution := N.fromExecution
  fromFee := N.fromFee
  txId := g

/-- A lawful external sub-object codec: reading bytes that start with
an encoding yields the encoded value and consumes exactly the bytes of
the encoding, for any continuation of the stream. -/
def PrefixCodec {α : Type} (enc : α → List Nat) (dec : List Nat → Option (α × Nat)) : Prop :=
  ∀ (a : α) (rest : List Nat), dec (enc a ++ rest) = some (a, (enc a).length)

/-- A transaction obtainable from one of the three variant
constructors, as in the lifecycle of the spec. -/
def Constructible (N : Network Owner Depl Exec Fee TxId)
    (t : Transaction Owner Depl Exec Fee TxId) : Prop :=
  (∃ o d f, N.fromDeployment o d f = .ok t) ∨
  (∃ e fo, N.fromExecution e fo = .ok t) ∨
  (∃ f, N.fromFee f = .ok t)

/-- Well-behavedness of a parsing step with respect to the byte limit:
successful runs only advance the byte counter, a successful run is
reproduced under any limit at least its final count, and a run that
succeeded under some limit fails with the size-limit error under any
smaller limit crossed by its final count. -/
structure GoodStep {α : Type} (f : PStep α) : Prop where
  mono : ∀ L s a s₁, f L s = .ok (a, s₁) → s.2 ≤ s₁.2
  stable : ∀ L M s a s₁, f L s = .ok (a, s₁) → s₁.2 ≤ M → f M s = .ok (a, s₁)
  lower : ∀ L M s a s₁, f L s = .ok (a, s₁) → s.2 ≤ M → M < s₁.2 →
    f M s = .error .sizeLimitExceeded

/-- A lawful network, as the spec assumes of the external
collaborators: each sub-object codec decodes its own encodings back
(consuming exactly the encoded bytes, whatever follows them), and each
constructor success stores exactly the given fields together with an
embedded identifier equal to the recomputed identifier of the result,
as in invariant 1 and the lifecycle of the spec. -/
structure LawfulNetwork (N : Network Owner Depl Exec Fee TxId) : Prop where
  prefixTxId : PrefixCodec N.writeTxId N.readTxId
  prefixOwner : PrefixCodec N.writeOwner N.readOwner
  prefixDeployment : PrefixCodec N.writeDeployment N.readDeployment
  prefixExecution : PrefixCodec N.writeExecution N.readExecution
  prefixFee : PrefixCodec N.writeFee N.readFee
  consDeployment : ∀ o d f t, N.fromDeployment o d f = .ok t → t = .deploy (N.txId t) o d f
  consExecution : ∀ e fo t, N.fromExecution e fo = .ok t → t = .execute (N.txId t) e fo
  consFee : ∀ f t, N.fromFee f = .ok t → t = .fee (N.txId t) f

/-- A one-byte demonstration sub-object codec, writing side: every
sub-object value is a natural number encoded as a single byte. -/
def demoWrite (x : Nat) : List Nat := [x]

/-- A one-byte demonstration sub-object codec, reading side. -/
def demoRead : List Nat → Option (Nat × Nat)
  | [] => none
  | b :: _ => some (b, 1)

/-- The demonstration transaction identifier function: a digest of the
variant fields, independent of the stored identifier. -/
def demoTxId : Transaction Nat Nat Nat Nat Nat → Nat
  | .deploy _ o d f => o + d + f
  | .execute _ e fo => e + fo.getD 0
  | .fee _ f => f

/-- A demonstration network with the given maximum transaction size,
one-byte sub-object codecs, and constructors that embed the recomputed
identifier, used to exhibit concrete runs of the codec. -/
def demoNetAt (L : Nat) : Network Nat Nat Nat Nat Nat where
  maxTransactionSize := L
  writeTxId := demoWrite
  readTxId := demoRead
  writeOwner := demoWrite
  readOwner := demoRead
  writeDeployment := demoWrite
  readDeployment := demoRead
  writeExecution := demoWrite
  readExecution := demoRead
  writeFee := demoWrite
  readFee := demoRead
  fromDeployment := fun o d f => .ok (.deploy (o + d + f) o d f)
  fromExecution := fun e fo => .ok (.execute (e + fo.getD 0) e fo)
  fromFee := fun f => .ok (.fee f f)
  txId := demoTxId

/-- The demonstration network with a maximum transaction size of 10. -/
def demoNet : Network Nat Nat Nat Nat Nat := demoNetAt 10

/-- A demonstration network whose maximum transaction size of 3 is too
small for any transaction, used to exhibit size-limit failures. -/
def tinyNet : Network Nat Nat Nat Nat Nat := demoNetAt 3

/-- Evaluation of a pure step. -/
lemma ppure_eval {α : Type} (a : α) (L : Nat) (s : RState) : ppure a L s = .ok (a, s) := rfl

/-- Evaluation of a sequenced step whose first component succeeds. -/
lemma pbind_eval {α β : Type} {f : PStep α} {L : Nat} {s : RState} {a : α} {s₁ : RState}
    (g : α → PStep β) (h : f L s = .ok (a, s₁)) : pbind f g L s = g a L s₁ := by
  simp [pbind, h]

/-- Evaluation of a sequenced step whose first component fails. -/
lemma pbind_eval_err {α β : Type} {f : PStep α} {L : Nat} {s : RState} {e : CodecError}
    (g : α → PStep β) (h : f L s = .error e) : pbind f g L s = .error e := by
  simp [pbind, h]

/-- Evaluation of a byte read under a sufficient limit. -/
lemma readU8_eval {L : Nat} (b : Nat) (rest : List Nat) (c : Nat) (h : c + 1 ≤ L) :
    readU8 L (b :: rest, c) = .ok (b, (rest, c + 1)) := by
  simp only [readU8]
  rw [if_neg (by omega)]

/-- Evaluation of a lawful sub-object read on a stream starting with an
encoding, under a sufficient limit. -/
lemma readSub_eval {α : Type} {enc : α → List Nat} {dec : List Nat → Option (α × Nat)}
    (hc : PrefixCodec enc dec) {L : Nat} (a : α) (rest : List Nat) (c : Nat)
    (h : c + (enc a).length ≤ L) :
    readSub dec L (enc a ++ rest, c) = .ok (a, (rest, c + (enc a).length)) := by
  simp only [readSub, hc a rest]
  rw [if_neg (by omega)]
  simp [List.drop_left]

/-- Lifting a successful constructor result is a pure step. -/
lemma pofResult_ok {α : Type} (a : α) : pofResult (Except.ok a) = ppure a := rfl

/-- Chunked writing appends the concatenation of the chunks when the
total stays within the limit and fails with the size-limit error as
soon as the running total would cross it. -/
lemma writeAll_eq (L : Nat) (cs : List (List Nat)) (acc : List Nat) (hacc : acc.length ≤ L) :
    writeAll L acc cs =
      if acc.length + cs.flatten.length ≤ L then .ok (acc ++ cs.flatten)
      else .error .sizeLimitExceeded := by
  induction cs generalizing acc with
  | nil => simp [writeAll, hacc]
  | cons c cs ih =>
    by_cases hc : L < acc.length + c.length
    · have h1 : writeChunk L c acc = .error .sizeLimitExceeded := by
        simp [writeChunk, hc]
      simp only [writeAll, h1]
      rw [if_neg (by simp [List.flatten_cons]; omega)]
    · have h1 : writeChunk L c acc = .ok (acc ++ c) := by
        simp [writeChunk, hc]
      simp only [writeAll, h1]
      rw [ih (acc ++ c) (by simp; omega)]
      simp only [List.flatten_cons, List.length_append, List.append_assoc, Nat.add_assoc]

/-- Characterization of a successful byte read. -/
lemma readU8_ok {L : Nat} {s : RState} {a : Nat} {s₁ : RState}
    (h : readU8 L s = .ok (a, s₁)) :
    s.2 + 1 ≤ L ∧ s.1 = a :: s₁.1 ∧ s₁.2 = s.2 + 1 := by
  unfold readU8 at h
  split at h
  · exact absurd h (by simp)
  · split at h
    · exact absurd h (by simp)
    · rename_i hlt input b rest heq
      simp only [Except.ok.injEq, Prod.mk.injEq] at h
      obtain ⟨hb, hs⟩ := h
      subst hb
      refine ⟨by omega, ?_, ?_⟩
      · rw [heq, ← hs]
      · rw [← hs]

/-- Characterization of a successful sub-object read. -/
lemma readSub_ok {α : Type} {rd : List Nat → Option (α × Nat)} {L : Nat} {s : RState}
    {a : α} {s₁ : RState} (h : readSub rd L s = .ok (a, s₁)) :
    ∃ n, rd s.1 = some (a, n) ∧ s.2 + n ≤ L ∧ s₁ = (s.1.drop n, s.2 + n) := by
  unfold readSub at h
  split at h
  · exact absurd h (by simp)
  · rename_i p b n heq
    split at h
    · exact absurd h (by simp)
    · rename_i hle
      simp only [Except.ok.injEq, Prod.mk.injEq] at h
      obtain ⟨hb, hs⟩ := h
      subst hb
      exact ⟨n, heq, by omega, hs.symm⟩

/-- Pure steps are well behaved with respect to the byte limit. -/
lemma goodStep_ppure {α : Type} (a : α) : GoodStep (ppure a) := by
  constructor
  · intro L s b s₁ h
    simp only [ppure, Except.ok.injEq, Prod.mk.injEq] at h
    obtain ⟨-, h⟩ := h
    subst h
    exact le_refl _
  · intro L M s b s₁ h _
    simp only [ppure, Except.ok.injEq, Prod.mk.injEq] at h ⊢
    exact ⟨h.1, h.2⟩
  · intro L M s b s₁ h h1 h2
    simp only [ppure, Except.ok.injEq, Prod.mk.injEq] at h
    obtain ⟨-, h⟩ := h
    subst h
    omega

/-- Failing steps are well behaved with respect to the byte limit. -/
lemma goodStep_pfail {α : Type} (e : CodecError) : GoodStep (pfail (α := α) e) := by
  constructor
  · intro L s a s₁ h
    exact absurd h (by simp [pfail])
  · intro L M s a s₁ h hM
    exact absurd h (by simp [pfail])
  · intro L M s a s₁ h h1 h2
    exact absurd h (by simp [pfail])

/-- The byte read is well behaved with respect to the byte limit. -/
lemma goodStep_readU8 : GoodStep readU8 := by
  constructor
  · intro L s a s₁ h
    have := readU8_ok h
    omega
  · intro L M s a s₁ h hM
    obtain ⟨h1, h2, h3⟩ := readU8_ok h
    obtain ⟨inp, c⟩ := s
    obtain ⟨inp₁, c₁⟩ := s₁
    simp only at h1 h2 h3 hM
    subst h2
    subst h3
    exact readU8_eval a inp₁ c (by omega)
  · intro L M s a s₁ h h1 h2
    obtain ⟨hA, hB, hC⟩ := readU8_ok h
    simp only [readU8]
    rw [if_pos (by omega)]

/-- Sub-object reads are well behaved with respect to the byte limit. -/
lemma goodStep_readSub {α : Type} (rd : List Nat → Option (α × Nat)) :
    GoodStep (readSub rd) := by
  constructor
  · intro L s a s₁ h
    obtain ⟨n, -, -, hs⟩ := readSub_ok h
    subst hs
    simp only
    omega
  · intro L M s a s₁ h hM
    obtain ⟨n, hrd, hle, hs⟩ := readSub_ok h
    subst hs
    simp only at hM
    simp only [readSub, hrd]
    rw [if_neg (by omega)]
  · intro L M s a s₁ h h1 h2
    obtain ⟨n, hrd, hle, hs⟩ := readSub_ok h
    subst hs
    simp only at h2
    simp only [readSub, hrd]
    rw [if_pos (by omega)]

/-- Lifted constructor results are well behaved steps. -/
lemma goodStep_pofResult {α : Type} (r : Except String α) : GoodStep (pofResult r) := by
  unfold pofResult
  match r with
  | .error e => exact goodStep_pfail _
  | .ok a => exact goodStep_ppure a

/-- Sequencing preserves well-behavedness with respect to the limit. -/
lemma goodStep_pbind {α β : Type} {f : PStep α} {g : α → PStep β}
    (hf : GoodStep f) (hg : ∀ a, GoodStep (g a)) : GoodStep (pbind f g) := by
  constructor
  · intro L s b s₂ h
    unfold pbind at h
    split at h
    · exact absurd h (by simp)
    · rename_i p a s₁ heq
      exact le_trans (hf.mono L s a s₁ heq) ((hg a).mono L s₁ b s₂ h)
  · intro L M s b s₂ h hM
    unfold pbind at h
    split at h
    · exact absurd h (by simp)
    · rename_i p a s₁ heq
      have hs₁ : s₁.2 ≤ M := le_trans ((hg a).mono L s₁ b s₂ h) hM
      unfold pbind
      rw [hf.stable L M s a s₁ heq hs₁]
      exact (hg a).stable L M s₁ b s₂ h hM
  · intro L M s b s₂ h h1 h2
    unfold pbind at h
    split at h
    · exact absurd h (by simp)
    · rename_i p a s₁ heq
      by_cases hs₁ : s₁.2 ≤ M
      · unfold pbind
        rw [hf.stable L M s a s₁ heq hs₁]
        exact (hg a).lower L M s₁ b s₂ h hs₁ h2
      · unfold pbind
        rw [hf.lower L M s a s₁ heq h1 (by omega)]

/-- An if-then-else of well-behaved steps is well behaved. -/
lemma goodStep_ite {α : Type} (c : Prop) [Decidable c] {f g : PStep α}
    (hf : GoodStep f) (hg : GoodStep g) : GoodStep (if c then f else g) := by
  by_cases h : c
  · rw [if_pos h]; exact hf
  · rw [if_neg h]; exact hg

/-- The whole reading body is well behaved with respect to the limit. -/
lemma goodStep_core (N : Network Owner Depl Exec Fee TxId) : GoodStep (read_le_core N) := by
  unfold read_le_core
  refine goodStep_pbind goodStep_readU8 fun version => ?_
  refine goodStep_ite _ (goodStep_pfail _) ?_
  refine goodStep_pbind goodStep_readU8 fun variant => ?_
  refine goodStep_ite _ ?_ (goodStep_ite _ ?_ (goodStep_ite _ ?_ (goodStep_pfail _)))
  · refine goodStep_pbind (goodStep_readSub _) fun i => ?_
    refine goodStep_pbind (goodStep_readSub _) fun owner => ?_
    refine goodStep_pbind (goodStep_readSub _) fun deployment => ?_
    refine goodStep_pbind (goodStep_readSub _) fun f => ?_
    exact goodStep_pbind (goodStep_pofResult _) fun transaction => goodStep_ppure _
  · refine goodStep_pbind (goodStep_readSub _) fun i => ?_
    refine goodStep_pbind (goodStep_readSub _) fun execution => ?_
    refine goodStep_pbind goodStep_readU8 fun feeVariant => ?_
    refine goodStep_pbind ?_ fun fo => goodStep_pbind (goodStep_pofResult _)
      fun transaction => goodStep_ppure _
    refine goodStep_ite _ (goodStep_ppure _) ?_
    refine goodStep_ite _ ?_ (goodStep_pfail _)
    exact goodStep_pbind (goodStep_readSub _) fun f => goodStep_ppure _
  · refine goodStep_pbind (goodStep_readSub _) fun i => ?_
    refine goodStep_pbind (goodStep_readSub _) fun f => ?_
    exact goodStep_pbind (goodStep_pofResult _) fun transaction => goodStep_ppure _

/-- The write dichotomy: encoding succeeds with the canonical bytes
when the total encoded size is within the maximum transaction size and
fails with the size-limit error otherwise. -/
lemma write_le_eq (N : Network Owner Depl Exec Fee TxId)
    (t : Transaction Owner Depl Exec Fee TxId) :
    Transaction.write_le N t =
      if encodedSize N t ≤ N.maxTransactionSize then .ok (canonicalBytes N t)
      else .error .sizeLimitExceeded := by
  unfold Transaction.write_le
  rw [writeAll_eq _ _ _ (by simp)]
  simp [canonicalBytes, encodedSize]

/-- Shape of the canonical encoding of a Deploy transaction. -/
lemma canonicalBytes_deploy (N : Network Owner Depl Exec Fee TxId)
    (i : TxId) (o : Owner) (d : Depl) (f : Fee) :
    canonicalBytes N (.deploy i o d f) =
      1 :: 0 :: (N.writeTxId i ++ (N.writeOwner o ++ (N.writeDeployment d ++ N.writeFee f))) := by
  simp [canonicalBytes, Transaction.chunks]

/-- Shape of the canonical encoding of an Execute transaction without a
fee: the byte 0 follows the execution bytes. -/
lemma canonicalBytes_execute_none (N : Network Owner Depl Exec Fee TxId)
    (i : TxId) (e : Exec) :
    canonicalBytes N (.execute i e none) =
      1 :: 1 :: (N.writeTxId i ++ (N.writeExecution e ++ [0])) := by
  simp [canonicalBytes, Transaction.chunks]

/-- Shape of the canonical encoding of an Execute transaction with a
fee: the byte 1 follows the execution bytes, then the fee bytes. -/
lemma canonicalBytes_execute_some (N : Network Owner Depl Exec Fee TxId)
    (i : TxId) (e : Exec) (f : Fee) :
    canonicalBytes N (.execute i e (some f)) =
      1 :: 1 :: (N.writeTxId i ++ (N.writeExecution e ++ 1 :: N.writeFee f)) := by
  simp [canonicalBytes, Transaction.chunks]

/-- Shape of the canonical encoding of a Fee transaction. -/
lemma canonicalBytes_fee (N : Network Owner Depl Exec Fee TxId) (i : TxId) (f : Fee) :
    canonicalBytes N (.fee i f) = 1 :: 2 :: (N.writeTxId i ++ N.writeFee f) := by
  simp [canonicalBytes, Transaction.chunks]

/-- The decoder is the reading body followed by the identifier check. -/
lemma read_le_of_core_ok [DecidableEq TxId] {N : Network Owner Depl Exec Fee TxId}
    {input : List Nat} {i : TxId} {t : Transaction Owner Depl Exec Fee TxId} {s₁ : RState}
    (h : read_le_core N N.maxTransactionSize (input, 0) = .ok ((i, t), s₁)) :
    Transaction.read_le N input =
      if N.txId t = i then .ok t else .error .identifierMismatch := by
  unfold Transaction.read_le
  rw [h]

/-- A failure of the reading body propagates out of the decoder. -/
lemma read_le_of_core_err [DecidableEq TxId] {N : Network Owner Depl Exec Fee TxId}
    {input : List Nat} {e : CodecError}
    (h : read_le_core N N.maxTransactionSize (input, 0) = .error e) :
    Transaction.read_le N input = .error e := by
  unfold Transaction.read_le
  rw [h]

/-- Evaluation of the reading body on a Deploy encoding followed by
arbitrary trailing bytes, with lawful sub-object codecs and a
sufficient limit. -/
lemma core_eval_deploy (N : Network Owner Depl Exec Fee TxId)
    (hId : PrefixCodec N.writeTxId N.readTxId)
    (hOw : PrefixCodec N.writeOwner N.readOwner)
    (hDe : PrefixCodec N.writeDeployment N.readDeployment)
    (hFe : PrefixCodec N.writeFee N.readFee)
    (i : TxId) (o : Owner) (d : Depl) (f : Fee)
    {t : Transaction Owner Depl Exec Fee TxId} (junk : List Nat) (L : Nat)
    (hT : N.fromDeployment o d f = .ok t)
    (hL : 2 + (N.writeTxId i).length + (N.writeOwner o).length + (N.writeDeployment d).length
      + (N.writeFee f).length ≤ L) :
    ∃ c, read_le_core N L
      (1 :: 0 :: (N.writeTxId i ++ (N.writeOwner o ++ (N.writeDeployment d
        ++ (N.writeFee f ++ junk)))), 0) = .ok ((i, t), (junk, c)) := by
  refine ⟨2 + (N.writeTxId i).length + (N.writeOwner o).length + (N.writeDeployment d).length
    + (N.writeFee f).length, ?_⟩
  unfold read_le_core
  rw [pbind_eval _ (readU8_eval 1 _ 0 (by omega))]
  rw [if_neg (by decide)]
  rw [pbind_eval _ (readU8_eval 0 _ _ (by omega))]
  rw [if_pos rfl]
  rw [pbind_eval _ (readSub_eval hId i _ _ (by omega))]
  rw [pbind_eval _ (readSub_eval hOw o _ _ (by omega))]
  rw [pbind_eval _ (readSub_eval hDe d _ _ (by omega))]
  rw [pbind_eval _ (readSub_eval hFe f junk _ (by omega))]
  rw [hT, pofResult_ok]
  rw [pbind_eval _ (ppure_eval t L _)]
  simp only [ppure, Except.ok.injEq, Prod.mk.injEq, eq_self_iff_true, true_and, and_true]

/-- Evaluation of the reading body on an Execute encoding whose
fee-presence byte is 0, followed by arbitrary trailing bytes. -/
lemma core_eval_execute_none (N : Network Owner Depl Exec Fee TxId)
    (hId : PrefixCodec N.writeTxId N.readTxId)
    (hEx : PrefixCodec N.writeExecution N.readExecution)
    (i : TxId) (e : Exec)
    {t : Transaction Owner Depl Exec Fee TxId} (junk : List Nat) (L : Nat)
    (hT : N.fromExecution e none = .ok t)
    (hL : 3 + (N.writeTxId i).length + (N.writeExecution e).length ≤ L) :
    ∃ c, read_le_core N L
      (1 :: 1 :: (N.writeTxId i ++ (N.writeExecution e ++ 0 :: junk)), 0)
      = .ok ((i, t), (junk, c)) := by
  refine ⟨3 + (N.writeTxId i).length + (N.writeExecution e).length, ?_⟩
  unfold read_le_core
  rw [pbind_eval _ (readU8_eval 1 _ 0 (by omega))]
  rw [if_neg (by decide)]
  rw [pbind_eval _ (readU8_eval 1 _ _ (by omega))]
  rw [if_neg (by decide), if_pos rfl]
  rw [pbind_eval _ (readSub_eval hId i _ _ (by omega))]
  rw [pbind_eval _ (readSub_eval hEx e _ _ (by omega))]
  rw [pbind_eval _ (readU8_eval 0 junk _ (by omega))]
  rw [pbind_eval _ (by rw [if_pos rfl]; exact ppure_eval none L _)]
  rw [hT, pofResult_ok]
  rw [pbind_eval _ (ppure_eval t L _)]
  simp only [ppure, Except.ok.injEq, Prod.mk.injEq, eq_self_iff_true, true_and, and_true]
  all_goals omega

/-- Evaluation of the reading body on an Execute encoding whose
fee-presence byte is 1, followed by fee bytes and arbitrary trailing
bytes. -/
lemma core_eval_execute_some (N : Network Owner Depl Exec Fee TxId)
    (hId : PrefixCodec N.writeTxId N.readTxId)
    (hEx : PrefixCodec N.writeExecution N.readExecution)
    (hFe : PrefixCodec N.writeFee N.readFee)
    (i : TxId) (e : Exec) (f : Fee)
    {t : Transaction Owner Depl Exec Fee TxId} (junk : List Nat) (L : Nat)
    (hT : N.fromExecution e (some f) = .ok t)
    (hL : 3 + (N.writeTxId i).length + (N.writeExecution e).length
      + (N.writeFee f).length ≤ L) :
    ∃ c, read_le_core N L
      (1 :: 1 :: (N.writeTxId i ++ (N.writeExecution e ++ 1 :: (N.writeFee f ++ junk))), 0)
      = .ok ((i, t), (junk, c)) := by
  refine ⟨3 + (N.writeTxId i).length + (N.writeExecution e).length
    + (N.writeFee f).length, ?_⟩
  unfold read_le_core
  rw [pbind_eval _ (readU8_eval 1 _ 0 (by omega))]
  rw [if_neg (by decide)]
  rw [pbind_eval _ (readU8_eval 1 _ _ (by omega))]
  rw [if_neg (by decide), if_pos rfl]
  rw [pbind_eval _ (readSub_eval hId i _ _ (by omega))]
  rw [pbind_eval _ (readSub_eval hEx e _ _ (by omega))]
  rw [pbind_eval _ (readU8_eval 1 _ _ (by omega))]
  rw [pbind_eval _ (by
    rw [if_neg (by decide), if_pos rfl]
    rw [pbind_eval _ (readSub_eval hFe f junk _ (by omega))]
    exact ppure_eval (some f) L _)]
  rw [hT, pofResult_ok]
  rw [pbind_eval _ (ppure_eval t L _)]
  simp only [ppure, Except.ok.injEq, Prod.mk.injEq, eq_self_iff_true, true_and, and_true]
  all_goals omega

/-- Evaluation of the reading body on an Execute-tagged stream whose
fee-presence byte is neither 0 nor 1: the body fails with the invalid
fee variant error. -/
lemma core_eval_execute_badfee (N : Network Owner Depl Exec Fee TxId)
    (hId : PrefixCodec N.writeTxId N.readTxId)
    (hEx : PrefixCodec N.writeExecution N.readExecution)
    (i : TxId) (e : Exec) (fv : Nat) (junk : List Nat) (L : Nat)
    (hfv : 2 ≤ fv)
    (hL : 3 + (N.writeTxId i).length + (N.writeExecution e).length ≤ L) :
    read_le_core N L
      (1 :: 1 :: (N.writeTxId i ++ (N.writeExecution e ++ fv :: junk)), 0)
      = .error .invalidFeeVariant := by
  unfold read_le_core
  rw [pbind_eval _ (readU8_eval 1 _ 0 (by omega))]
  rw [if_neg (by decide)]
  rw [pbind_eval _ (readU8_eval 1 _ _ (by omega))]
  rw [if_neg (by decide), if_pos rfl]
  rw [pbind_eval _ (readSub_eval hId i _ _ (by omega))]
  rw [pbind_eval _ (readSub_eval hEx e _ _ (by omega))]
  rw [pbind_eval _ (readU8_eval fv junk _ (by omega))]
  rw [if_neg (by omega), if_neg (by omega)]
  rfl

/-- Evaluation of the reading body on a Fee encoding followed by
arbitrary trailing bytes. -/
lemma core_eval_fee (N : Network Owner Depl Exec Fee TxId)
    (hId : PrefixCodec N.writeTxId N.readTxId)
    (hFe : PrefixCodec N.writeFee N.readFee)
    (i : TxId) (f : Fee)
    {t : Transaction Owner Depl Exec Fee TxId} (junk : List Nat) (L : Nat)
    (hT : N.fromFee f = .ok t)
    (hL : 2 + (N.writeTxId i).length + (N.writeFee f).length ≤ L) :
    ∃ c, read_le_core N L (1 :: 2 :: (N.writeTxId i ++ (N.writeFee f ++ junk)), 0)
      = .ok ((i, t), (junk, c)) := by
  refine ⟨2 + (N.writeTxId i).length + (N.writeFee f).length, ?_⟩
  unfold read_le_core
  rw [pbind_eval _ (readU8_eval 1 _ 0 (by omega))]
  rw [if_neg (by decide)]
  rw [pbind_eval _ (readU8_eval 2 _ _ (by omega))]
  rw [if_neg (by decide), if_neg (by decide), if_pos rfl]
  rw [pbind_eval _ (readSub_eval hId i _ _ (by omega))]
  rw [pbind_eval _ (readSub_eval hFe f junk _ (by omega))]
  rw [hT, pofResult_ok]
  rw [pbind_eval _ (ppure_eval t L _)]
  simp only [ppure, Except.ok.injEq, Prod.mk.injEq, eq_self_iff_true, true_and, and_true]

/-- The encoded size of a Deploy transaction. -/
lemma encodedSize_deploy (N : Network Owner Depl Exec Fee TxId)
    (i : TxId) (o : Owner) (d : Depl) (f : Fee) :
    encodedSize N (.deploy i o d f) = 2 + (N.writeTxId i).length + (N.writeOwner o).length
      + (N.writeDeployment d).length + (N.writeFee f).length := by
  simp [encodedSize, canonicalBytes_deploy]
  omega

/-- The encoded size of an Execute transaction without a fee. -/
lemma encodedSize_execute_none (N : Network Owner Depl Exec Fee TxId)
    (i : TxId) (e : Exec) :
    encodedSize N (.execute i e none)
      = 3 + (N.writeTxId i).length + (N.writeExecution e).length := by
  simp [encodedSize, canonicalBytes_execute_none]
  omega

/-- The encoded size of an Execute transaction with a fee. -/
lemma encodedSize_execute_some (N : Network Owner Depl Exec Fee TxId)
    (i : TxId) (e : Exec) (f : Fee) :
    encodedSize N (.execute i e (some f))
      = 3 + (N.writeTxId i).length + (N.writeExecution e).length
        + (N.writeFee f).length := by
  simp [encodedSize, canonicalBytes_execute_some]
  omega

/-- The encoded size of a Fee transaction. -/
lemma encodedSize_fee (N : Network Owner Depl Exec Fee TxId) (i : TxId) (f : Fee) :
    encodedSize N (.fee i f)
      = 2 + (N.writeTxId i).length + (N.writeFee f).length := by
  simp [encodedSize, canonicalBytes_fee]
  omega

/-- Decoding the canonical encoding of a constructible transaction,
followed by arbitrary trailing bytes, returns the transaction itself
whenever the encoded size is within the maximum transaction size. -/
lemma read_canonical [DecidableEq TxId] {N : Network Owner Depl Exec Fee TxId}
    (hN : LawfulNetwork N) {t : Transaction Owner Depl Exec Fee TxId}
    (hC : Constructible N t) (hLe : encodedSize N t ≤ N.maxTransactionSize)
    (junk : List Nat) :
    Transaction.read_le N (canonicalBytes N t ++ junk) = .ok t := by
  rcases hC with ⟨o, d, f, hT⟩ | ⟨e, fo, hT⟩ | ⟨f, hT⟩
  · have ht := hN.consDeployment o d f t hT
    set i := N.txId t with hi
    rw [ht] at hLe
    rw [encodedSize_deploy] at hLe
    rw [ht, canonicalBytes_deploy]
    simp only [List.cons_append, List.append_assoc]
    obtain ⟨c, hcore⟩ := core_eval_deploy N hN.prefixTxId hN.prefixOwner
      hN.prefixDeployment hN.prefixFee i o d f junk N.maxTransactionSize hT (by omega)
    rw [read_le_of_core_ok hcore, if_pos hi.symm, ht]
  · have ht := hN.consExecution e fo t hT
    set i := N.txId t with hi
    match fo with
    | none =>
      rw [ht] at hLe
      rw [encodedSize_execute_none] at hLe
      rw [ht, canonicalBytes_execute_none]
      simp only [List.cons_append, List.append_assoc, List.nil_append]
      obtain ⟨c, hcore⟩ := core_eval_execute_none N hN.prefixTxId hN.prefixExecution
        i e junk N.maxTransactionSize hT (by omega)
      rw [read_le_of_core_ok hcore, if_pos hi.symm, ht]
    | some f =>
      rw [ht] at hLe
      rw [encodedSize_execute_some] at hLe
      rw [ht, canonicalBytes_execute_some]
      simp only [List.cons_append, List.append_assoc]
      obtain ⟨c, hcore⟩ := core_eval_execute_some N hN.prefixTxId hN.prefixExecution
        hN.prefixFee i e f junk N.maxTransactionSize hT (by omega)
      rw [read_le_of_core_ok hcore, if_pos hi.symm, ht]
  · have ht := hN.consFee f t hT
    set i := N.txId t with hi
    rw [ht] at hLe
    rw [encodedSize_fee] at hLe
    rw [ht, canonicalBytes_fee]
    simp only [List.cons_append, List.append_assoc]
    obtain ⟨c, hcore⟩ := core_eval_fee N hN.prefixTxId hN.prefixFee i f junk N.maxTransactionSize hT (by omega)
    rw [read_le_of_core_ok hcore, if_pos hi.symm, ht]

/-- The demonstration one-byte codec is a lawful prefix codec. -/
lemma demoPrefix : PrefixCodec demoWrite demoRead := by
  intro a rest
  rfl

/-- Every demonstration network is lawful. -/
lemma demoLawful (L : Nat) : LawfulNetwork (demoNetAt L) := by
  constructor
  · exact demoPrefix
  · exact demoPrefix
  · exact demoPrefix
  · exact demoPrefix
  · exact demoPrefix
  · intro o d f t h
    injection h with h
    subst h
    rfl
  · intro e fo t h
    injection h with h
    subst h
    rfl
  · intro f t h
    injection h with h
    subst h
    rfl

/-- Encoding then decoding returns the transaction, for a constructible
transaction over a lawful network. -/
lemma roundtrip_of_write [DecidableEq TxId] {N : Network Owner Depl Exec Fee TxId}
    (hN : LawfulNetwork N) {t : Transaction Owner Depl Exec Fee TxId}
    (hC : Constructible N t) {bs : List Nat}
    (hW : Transaction.write_le N t = .ok bs) :
    Transaction.read_le N bs = .ok t := by
  rw [write_le_eq] at hW
  by_cases h : encodedSize N t ≤ N.maxTransactionSize
  · rw [if_pos h] at hW
    injection hW with hW
    subst hW
    have hr := read_canonical hN hC h []
    rwa [List.append_nil] at hr
  · rw [if_neg h] at hW
    exact absurd hW (by simp)

/-- Claim C1: for every valid transaction constructible via the three
constructors from_deployment, from_execution and from_fee, decoding the
bytes produced by encoding it yields the transaction back:
Transaction.read_le inverts Transaction.write_le on every byte string
the writer produces, over lawful external collaborators. -/
theorem C1_roundtrip [DecidableEq TxId] (N : Network Owner Depl Exec Fee TxId)
    (hN : LawfulNetwork N) (t : Transaction Owner Depl Exec Fee TxId)
    (hC : Constructible N t) (bs : List Nat)
    (hW : Transaction.write_le N t = .ok bs) :
    Transaction.read_le N bs = .ok t :=
  roundtrip_of_write hN hC hW

/-- Witness for C1: a concrete Fee transaction on the demonstration
network encodes to four bytes that decode back to it. -/
theorem C1_roundtrip_witness :
    Transaction.read_le demoNet [1, 2, 7, 7]
      = .ok (Transaction.fee 7 7 : Transaction Nat Nat Nat Nat Nat) :=
  C1_roundtrip demoNet (demoLawful 10) (.fee 7 7)
    (Or.inr (Or.inr ⟨7, rfl⟩)) [1, 2, 7, 7] rfl

/-- Claim C2: a successfully decoded transaction recomputes exactly the
identifier that was read from the stream, and whenever the recomputed
identifier disagrees with the stream identifier, decoding fails with
the identifier mismatch error and the constructed transaction is never
returned. -/
theorem C2_id_verification [DecidableEq TxId] (N : Network Owner Depl Exec Fee TxId)
    (input : List Nat) :
    (∀ t, Transaction.read_le N input = .ok t →
      ∃ s₁, read_le_core N N.maxTransactionSize (input, 0) = .ok ((N.txId t, t), s₁)) ∧
    (∀ i t s₁, read_le_core N N.maxTransactionSize (input, 0) = .ok ((i, t), s₁) →
      N.txId t ≠ i → Transaction.read_le N input = .error .identifierMismatch) := by
  constructor
  · intro t h
    unfold Transaction.read_le at h
    split at h
    · exact absurd h (by simp)
    · rename_i p i t₀ s₁ heq
      split at h
      · rename_i hid
        injection h with h
        subst h
        refine ⟨s₁, ?_⟩
        rw [hid]
        exact heq
      · exact absurd h (by simp)
  · intro i t s₁ hcore hne
    rw [read_le_of_core_ok hcore, if_neg hne]

/-- Witness for C2: on the demonstration network, a matching stream
identifier decodes successfully with the recomputed identifier, and a
tampered identifier fails with the identifier mismatch error. -/
theorem C2_id_verification_witness :
    (∃ s₁, read_le_core demoNet demoNet.maxTransactionSize ([1, 2, 5, 5], 0)
      = .ok ((demoNet.txId (.fee 5 5), Transaction.fee 5 5), s₁)) ∧
    Transaction.read_le demoNet [1, 2, 9, 5] = .error .identifierMismatch := by
  constructor
  · exact (C2_id_verification demoNet [1, 2, 5, 5]).1 (.fee 5 5) rfl
  · exact (C2_id_verification demoNet [1, 2, 9, 5]).2 9 (.fee 5 5) ([], 4) rfl (by decide)

/-- Claim C3: both paths enforce MAX_TRANSACTION_SIZE: a transaction
whose total encoding exceeds the maximum fails to encode with the
size-limit error, and an input stream from which decoding would consume
more than the maximum (as witnessed by a successful run of the reading
body under a larger limit) fails to decode with the size-limit error
rather than succeeding. -/
theorem C3_size_limit [DecidableEq TxId] (N : Network Owner Depl Exec Fee TxId) :
    (∀ t : Transaction Owner Depl Exec Fee TxId,
      N.maxTransactionSize < encodedSize N t →
      Transaction.write_le N t = .error .sizeLimitExceeded) ∧
    (∀ (L : Nat) (input : List Nat) (p : TxId × Transaction Owner Depl Exec Fee TxId)
      (rest : List Nat) (c : Nat),
      read_le_core N L (input, 0) = .ok (p, (rest, c)) →
      N.maxTransactionSize < c →
      Transaction.read_le N input = .error .sizeLimitExceeded) := by
  constructor
  · intro t h
    rw [write_le_eq, if_neg (by omega)]
  · intro L input p rest c hrun hc
    exact read_le_of_core_err ((goodStep_core N).lower L N.maxTransactionSize
      (input, 0) p (rest, c) hrun (Nat.zero_le _) hc)

/-- Witness for C3: on the tiny demonstration network with maximum size
3, a four-byte Fee transaction fails to encode with the size-limit
error, and its four raw bytes fail to decode with the size-limit error
although the reading body succeeds under the limit 10. -/
theorem C3_size_limit_witness :
    Transaction.write_le tinyNet (.fee 1 1) = .error .sizeLimitExceeded ∧
    Transaction.read_le tinyNet [1, 2, 9, 9] = .error .sizeLimitExceeded := by
  constructor
  · exact (C3_size_limit tinyNet).1 (.fee 1 1) (by decide)
  · exact (C3_size_limit tinyNet).2 10 [1, 2, 9, 9] (9, .fee 9 9) [] 4 rfl (by decide)

/-- Claim C4: any input whose first byte is not the version byte 1 is
rejected with the invalid version error, regardless of the remaining
bytes, whenever the maximum transaction size admits reading a byte. -/
theorem C4_version_rejected [DecidableEq TxId] (N : Network Owner Depl Exec Fee TxId)
    (v : Nat) (rest : List Nat) (hv : v ≠ 1) (hMax : 1 ≤ N.maxTransactionSize) :
    Transaction.read_le N (v :: rest) = .error .invalidVersion := by
  refine read_le_of_core_err ?_
  unfold read_le_core
  rw [pbind_eval _ (readU8_eval v rest 0 (by omega))]
  rw [if_pos hv]
  rfl

/-- Witness for C4: the version byte 7 is rejected. -/
theorem C4_version_rejected_witness :
    Transaction.read_le demoNet [7, 1, 2, 3] = .error .invalidVersion :=
  C4_version_rejected demoNet 7 [1, 2, 3] (by decide) (by decide)

/-- Claim C5: with a valid version byte, any variant tag from 3 upwards
is rejected with the invalid variant error, for all surrounding bytes,
whenever the maximum transaction size admits reading two bytes. -/
theorem C5_variant_rejected [DecidableEq TxId] (N : Network Owner Depl Exec Fee TxId)
    (v : Nat) (rest : List Nat) (hv : 3 ≤ v) (hMax : 2 ≤ N.maxTransactionSize) :
    Transaction.read_le N (1 :: v :: rest) = .error .invalidVariant := by
  refine read_le_of_core_err ?_
  unfold read_le_core
  rw [pbind_eval _ (readU8_eval 1 _ 0 (by omega))]
  rw [if_neg (by decide)]
  rw [pbind_eval _ (readU8_eval v rest _ (by omega))]
  rw [if_neg (by omega), if_neg (by omega), if_neg (by omega)]
  rfl

/-- Witness for C5: the variant tag 9 is rejected. -/
theorem C5_variant_rejected_witness :
    Transaction.read_le demoNet [1, 9, 0] = .error .invalidVariant :=
  C5_variant_rejected demoNet 9 [0] (by decide) (by decide)

/-- Claim C6: on the Execute decode path, after the identifier and the
execution bundle exactly one fee-presence byte is read: 0 yields a
transaction with no fee, 1 causes the fee to be read next and yields a
transaction carrying it, and any other value fails the decode with the
invalid fee variant error. -/
theorem C6_fee_presence [DecidableEq TxId] (N : Network Owner Depl Exec Fee TxId)
    (hId : PrefixCodec N.writeTxId N.readTxId)
    (hEx : PrefixCodec N.writeExecution N.readExecution)
    (hFe : PrefixCodec N.writeFee N.readFee)
    (hE : ∀ e fo t, N.fromExecution e fo = .ok t → t = .execute (N.txId t) e fo)
    (i : TxId) (e : Exec) (rest : List Nat) :
    (∀ t, N.fromExecution e none = .ok t → N.txId t = i →
      3 + (N.writeTxId i).length + (N.writeExecution e).length ≤ N.maxTransactionSize →
      Transaction.read_le N (1 :: 1 :: (N.writeTxId i ++ (N.writeExecution e ++ 0 :: rest)))
        = .ok (Transaction.execute i e none)) ∧
    (∀ (f : Fee) t, N.fromExecution e (some f) = .ok t → N.txId t = i →
      3 + (N.writeTxId i).length + (N.writeExecution e).length + (N.writeFee f).length
        ≤ N.maxTransactionSize →
      Transaction.read_le N
        (1 :: 1 :: (N.writeTxId i ++ (N.writeExecution e ++ 1 :: (N.writeFee f ++ rest))))
        = .ok (Transaction.execute i e (some f))) ∧
    (∀ fv : Nat, 2 ≤ fv →
      3 + (N.writeTxId i).length + (N.writeExecution e).length ≤ N.maxTransactionSize →
      Transaction.read_le N (1 :: 1 :: (N.writeTxId i ++ (N.writeExecution e ++ fv :: rest)))
        = .error .invalidFeeVariant) := by
  refine ⟨?_, ?_, ?_⟩
  · intro t hT hid hL
    obtain ⟨c, hcore⟩ := core_eval_execute_none N hId hEx i e rest
      N.maxTransactionSize hT hL
    rw [read_le_of_core_ok hcore, if_pos hid]
    have ht := hE e none t hT
    rw [hid] at ht
    rw [ht]
  · intro f t hT hid hL
    obtain ⟨c, hcore⟩ := core_eval_execute_some N hId hEx hFe i e f rest
      N.maxTransactionSize hT hL
    rw [read_le_of_core_ok hcore, if_pos hid]
    have ht := hE e (some f) t hT
    rw [hid] at ht
    rw [ht]
  · intro fv hfv hL
    exact read_le_of_core_err
      (core_eval_execute_badfee N hId hEx i e fv rest N.maxTransactionSize hfv hL)

/-- Witness for C6: on the demonstration network, fee-presence byte 0
yields the fee-less Execute transaction, byte 1 yields the Execute
transaction carrying the fee that follows, and byte 5 is rejected with
the invalid fee variant error. -/
theorem C6_fee_presence_witness :
    Transaction.read_le demoNet [1, 1, 4, 4, 0]
      = .ok (Transaction.execute 4 4 none : Transaction Nat Nat Nat Nat Nat) ∧
    Transaction.read_le demoNet [1, 1, 13, 4, 1, 9]
      = .ok (Transaction.execute 13 4 (some 9) : Transaction Nat Nat Nat Nat Nat) ∧
    Transaction.read_le demoNet [1, 1, 4, 4, 5] = .error .invalidFeeVariant := by
  refine ⟨?_, ?_, ?_⟩
  · exact (C6_fee_presence demoNet demoPrefix demoPrefix demoPrefix
      (demoLawful 10).consExecution 4 4 []).1 (.execute 4 4 none) rfl rfl (by decide)
  · exact (C6_fee_presence demoNet demoPrefix demoPrefix demoPrefix
      (demoLawful 10).consExecution 13 4 []).2.1 9 (.execute 13 4 (some 9)) rfl rfl (by decide)
  · exact (C6_fee_presence demoNet demoPrefix demoPrefix demoPrefix
      (demoLawful 10).consExecution 4 4 []).2.2 5 (by decide) (by decide)

/-- Claim C7: a successful encoding is the version byte 1, then the
variant tag, then the identifier exactly as stored on the value, then
the variant fields in fixed order; the writer never consults the
identifier recomputation function; a Deploy encoding begins with 1, 0
and the stored identifier bytes; an Execute encoding without a fee
places the byte 0 immediately after the execution bytes. -/
theorem C7_layout (N : Network Owner Depl Exec Fee TxId)
    (t : Transaction Owner Depl Exec Fee TxId) (bs : List Nat)
    (hW : Transaction.write_le N t = .ok bs) :
    bs = canonicalBytes N t ∧
    (∃ tail, bs = 1 :: Transaction.tagOf t
      :: (N.writeTxId (Transaction.storedId t) ++ tail)) ∧
    (∀ g, Transaction.write_le (N.withTxId g) t = .ok bs) ∧
    (∀ i o d f, t = .deploy i o d f →
      bs = 1 :: 0 :: (N.writeTxId i
        ++ (N.writeOwner o ++ (N.writeDeployment d ++ N.writeFee f)))) ∧
    (∀ i e, t = .execute i e none →
      bs = 1 :: 1 :: (N.writeTxId i ++ (N.writeExecution e ++ [0]))) := by
  rw [write_le_eq] at hW
  by_cases h : encodedSize N t ≤ N.maxTransactionSize
  · rw [if_pos h] at hW
    injection hW with hW
    subst hW
    refine ⟨rfl, ?_, ?_, ?_, ?_⟩
    · rcases t with ⟨i, o, d, f⟩ | ⟨i, e, fo⟩ | ⟨i, f⟩
      · exact ⟨_, by rw [canonicalBytes_deploy]; rfl⟩
      · rcases fo with _ | f
        · exact ⟨_, by rw [canonicalBytes_execute_none]; rfl⟩
        · exact ⟨_, by rw [canonicalBytes_execute_some]; rfl⟩
      · exact ⟨_, by rw [canonicalBytes_fee]; rfl⟩
    · intro g
      have hsame : Transaction.write_le (N.withTxId g) t = Transaction.write_le N t := by
        rcases t with ⟨i, o, d, f⟩ | ⟨i, e, fo⟩ | ⟨i, f⟩
        · rfl
        · rcases fo with _ | f <;> rfl
        · rfl
      rw [hsame, write_le_eq, if_pos h]
    · intro i o d f ht
      subst ht
      rw [canonicalBytes_deploy]
    · intro i e ht
      subst ht
      rw [canonicalBytes_execute_none]
  · rw [if_neg h] at hW
    exact absurd hW (by simp)

/-- Witness for C7: a concrete fee-less Execute transaction encodes to
bytes whose final byte 0 immediately follows the execution byte, and
those bytes are its canonical encoding. -/
theorem C7_layout_witness :
    Transaction.write_le demoNet (.execute 3 3 none) = .ok [1, 1, 3, 3, 0] ∧
    [1, 1, 3, 3, 0] = canonicalBytes demoNet (.execute 3 3 none) :=
  ⟨rfl, (C7_layout demoNet (.execute 3 3 none) [1, 1, 3, 3, 0] rfl).1⟩

/-- Claim C8: re-encoding the decode of an encoding reproduces exactly
the same byte sequence: each constructible transaction has one
canonical encoding with no representation drift. -/
theorem C8_canonical_form [DecidableEq TxId] (N : Network Owner Depl Exec Fee TxId)
    (hN : LawfulNetwork N) (t : Transaction Owner Depl Exec Fee TxId)
    (hC : Constructible N t) (bs : List Nat)
    (hW : Transaction.write_le N t = .ok bs) :
    ∃ t₁, Transaction.read_le N bs = .ok t₁ ∧ Transaction.write_le N t₁ = .ok bs :=
  ⟨t, roundtrip_of_write hN hC hW, hW⟩

/-- Witness for C8: the encoding of a concrete Fee transaction decodes
to a transaction that re-encodes to the same bytes. -/
theorem C8_canonical_form_witness :
    ∃ t₁, Transaction.read_le demoNet [1, 2, 8, 8] = .ok t₁ ∧
      Transaction.write_le demoNet t₁ = .ok [1, 2, 8, 8] :=
  C8_canonical_form demoNet (demoLawful 10) (.fee 8 8)
    (Or.inr (Or.inr ⟨8, rfl⟩)) [1, 2, 8, 8] rfl

/-- Claim C9: encoding is atomic with respect to failure: for every
transaction the caller observes either full success carrying the
complete canonical byte sequence, or a size-limit failure carrying no
bytes; a half-written stream is never a result. -/
theorem C9_encode_atomic (N : Network Owner Depl Exec Fee TxId)
    (t : Transaction Owner Depl Exec Fee TxId) :
    (Transaction.write_le N t = .ok (canonicalBytes N t)
      ∧ encodedSize N t ≤ N.maxTransactionSize) ∨
    (Transaction.write_le N t = .error .sizeLimitExceeded
      ∧ N.maxTransactionSize < encodedSize N t) := by
  by_cases h : encodedSize N t ≤ N.maxTransactionSize
  · exact Or.inl ⟨by rw [write_le_eq, if_pos h], h⟩
  · exact Or.inr ⟨by rw [write_le_eq, if_neg h], by omega⟩

/-- Claim C10: decoding does not require the input to be exhausted:
appending arbitrary trailing bytes to a valid encoding still decodes to
the same transaction, since the bytes consumed stay within the maximum
transaction size. -/
theorem C10_trailing_bytes [DecidableEq TxId] (N : Network Owner Depl Exec Fee TxId)
    (hN : LawfulNetwork N) (t : Transaction Owner Depl Exec Fee TxId)
    (hC : Constructible N t) (bs : List Nat)
    (hW : Transaction.write_le N t = .ok bs) (junk : List Nat) :
    Transaction.read_le N (bs ++ junk) = .ok t := by
  rw [write_le_eq] at hW
  by_cases h : encodedSize N t ≤ N.maxTransactionSize
  · rw [if_pos h] at hW
    injection hW with hW
    subst hW
    exact read_canonical hN hC h junk
  · rw [if_neg h] at hW
    exact absurd hW (by simp)

/-- Witness for C10: the encoding of a concrete Fee transaction decodes
to it even with two junk bytes appended. -/
theorem C10_trailing_bytes_witness :
    Transaction.read_le demoNet [1, 2, 6, 6, 99, 42]
      = .ok (Transaction.fee 6 6 : Transaction Nat Nat Nat Nat Nat) :=
  C10_trailing_bytes demoNet (demoLawful 10) (.fee 6 6)
    (Or.inr (Or.inr ⟨6, rfl⟩)) [1, 2, 6, 6] rfl [99, 42]
